import Mathlib

/-!
Verification of the SE350 scope-bound resource-management macros from
`src/scope_bound/scope.h`.

The header defines four C macros:

* `SE350_SCOPE(before_expr, after_expr)` — expands to
  `for (_Bool _se350_loop_has_run = 0;
        _se350_loop_has_run ? 0 : ((void)(before_expr), 1);
        ((void)(after_expr), _se350_loop_has_run = 1))
     for (; !_se350_loop_has_run; _se350_loop_has_run = 1)`
* `SE350_SCOPE_EXIT(after_expr)` — expands to `SE350_SCOPE(0, after_expr)`
* `SE350_USING(decl, after_expr)` — expands to
  `for (_Bool _se350_loop_has_run = 0; !_se350_loop_has_run;)
     for (decl; !_se350_loop_has_run; ((void)(after_expr), _se350_loop_has_run = 1))
       for (; !_se350_loop_has_run; _se350_loop_has_run = 1)`
* `SE350_SCOPE_BREAK` — expands to `break`

We embed the fragment of C these expansions live in: expressions with side
effects (reads/writes of the `_Bool` flags, the comma operator, the ternary
operator, boolean negation, literals), statements (`for` loops with the three
clauses, `break`, `continue`, `return`, sequencing, `if`, and opaque
caller-supplied side-effecting expressions), and a big-step semantics with the
standard C meaning of `break`/`continue`/`return` inside `for`.  The state
carries a stack of `_Bool` variables (so that the shadowing of
`_se350_loop_has_run` by a nested macro expansion is modelled exactly as C
scoping resolves it), an opaque caller state `σ`, and a trace of events `ε`
emitted by the caller-supplied expressions.
-/

set_option autoImplicit false

namespace ScopeBound

/-- A caller-supplied side-effecting C expression whose value is discarded
(`before_expr`, `after_expr`, `decl`, or a statement of the guarded block):
it transforms the caller-visible state `σ` and emits a list of observable
events `ε`. -/
def Act (σ ε : Type) : Type := σ → σ × List ε

/-- How a C statement finishes: normal completion, or abruptly via `break`,
`continue`, or `return`. -/
inductive Outcome where
  | norm
  | brk
  | cont
  | ret
  deriving DecidableEq, Repr

/-- The program state: the stack of in-scope `_Bool` variables (innermost
first, so a redeclaration in a nested `for` init shadows the outer one exactly
as in C), the opaque caller-visible state, and the trace of events emitted so
far. -/
structure CState (σ ε : Type) where
  flags : List (String × Bool)
  user : σ
  trace : List ε
  deriving Repr

/-- Read the innermost in-scope `_Bool` variable named `n` (C name lookup). -/
def lookupFlag : List (String × Bool) → String → Bool
  | [], _ => false
  | (m, b) :: rest, n => if m = n then b else lookupFlag rest n

/-- Assign to the innermost in-scope `_Bool` variable named `n`. -/
def setFlag : List (String × Bool) → String → Bool → List (String × Bool)
  | [], _, _ => []
  | (m, b) :: rest, n, v => if m = n then (m, v) :: rest else (m, b) :: setFlag rest n v

/-- Enter the scope of a `_Bool n = init` declaration from a `for` init clause. -/
def pushFlag {σ ε : Type} (n : String) (init : Bool) (st : CState σ ε) : CState σ ε :=
  ⟨(n, init) :: st.flags, st.user, st.trace⟩

/-- Leave the scope of the innermost `_Bool` declaration. -/
def popFlag {σ ε : Type} (st : CState σ ε) : CState σ ε :=
  ⟨st.flags.tail, st.user, st.trace⟩

/-- Apply a caller-supplied side-effecting expression: update the caller state
and append its events to the trace.  The flag stack is untouched (caller code
never names the manufactured `_se350_loop_has_run` variable). -/
def runAct {σ ε : Type} (a : Act σ ε) (st : CState σ ε) : CState σ ε :=
  ⟨st.flags, (a st.user).1, st.trace ++ (a st.user).2⟩

/-- The C expressions occurring in the macro expansions (and in loop clauses of
caller code), evaluated for a boolean value and a side effect:
`lit b` is a literal (`0`/`1`), `readFlag n` reads a `_Bool` variable,
`assignFlag n b` is the assignment `n = b` (value `b`), `neg` is `!`,
`seqAct a e` is the comma expression `(void)(a), e`, `ternary c t f` is
`c ? t : f`, and `userCond c` is a caller-supplied condition on the caller
state (used for an enclosing caller `for` loop). -/
inductive Exp (σ ε : Type) where
  | lit (b : Bool)
  | readFlag (n : String)
  | assignFlag (n : String) (b : Bool)
  | neg (e : Exp σ ε)
  | seqAct (a : Act σ ε) (e : Exp σ ε)
  | ternary (c t f : Exp σ ε)
  | userCond (c : σ → Bool)

/-- Standard C evaluation of the expressions above. -/
def eval {σ ε : Type} : Exp σ ε → CState σ ε → Bool × CState σ ε
  | .lit b, st => (b, st)
  | .readFlag n, st => (lookupFlag st.flags n, st)
  | .assignFlag n b, st => (b, ⟨setFlag st.flags n b, st.user, st.trace⟩)
  | .neg e, st =>
    match eval e st with
    | (b, st') => (!b, st')
  | .seqAct a e, st => eval e (runAct a st)
  | .ternary c t f, st =>
    match eval c st with
    | (b, st') => if b then eval t st' else eval f st'
  | .userCond c, st => (c st.user, st)

/-- The C statements the macro expansions and guarded blocks are built from.
`for0 cond incr body` is `for (; cond; incr) body`;
`forD init cond incr body` is `for (decl; cond; incr) body` where the init
clause is a caller-supplied declaration/acquisition (its binding lives in the
caller state `σ`); `declFor n init cond incr body` is
`for (_Bool n = init; cond; incr) body`, scoping the flag to the loop. -/
inductive Stmt (σ ε : Type) where
  | skip
  | act (a : Act σ ε)
  | brk
  | cont
  | ret
  | seq (s1 s2 : Stmt σ ε)
  | ite (c : σ → Bool) (s1 s2 : Stmt σ ε)
  | for0 (cond incr : Exp σ ε) (body : Stmt σ ε)
  | forD (init : Act σ ε) (cond incr : Exp σ ε) (body : Stmt σ ε)
  | declFor (n : String) (init : Bool) (cond incr : Exp σ ε) (body : Stmt σ ε)

/-- Big-step semantics of the C fragment, with the standard meaning of
`break`/`continue`/`return` with respect to `for`: the condition is evaluated
before each iteration; the increment is evaluated after the body completes
normally or via `continue`; `break` leaves the loop immediately (skipping the
increment); `return` propagates out of every loop. -/
inductive Eval {σ ε : Type} : Stmt σ ε → CState σ ε → Outcome → CState σ ε → Prop where
  | skip {st : CState σ ε} : Eval .skip st .norm st
  | act {a : Act σ ε} {st : CState σ ε} : Eval (.act a) st .norm (runAct a st)
  | brk {st : CState σ ε} : Eval .brk st .brk st
  | cont {st : CState σ ε} : Eval .cont st .cont st
  | ret {st : CState σ ε} : Eval .ret st .ret st
  | seqNorm {s1 s2 : Stmt σ ε} {st st1 st2 : CState σ ε} {o : Outcome} :
      Eval s1 st .norm st1 → Eval s2 st1 o st2 → Eval (.seq s1 s2) st o st2
  | seqAbrupt {s1 s2 : Stmt σ ε} {st st1 : CState σ ε} {o : Outcome} :
      Eval s1 st o st1 → o ≠ .norm → Eval (.seq s1 s2) st o st1
  | iteTrue {c : σ → Bool} {s1 s2 : Stmt σ ε} {st st' : CState σ ε} {o : Outcome} :
      c st.user = true → Eval s1 st o st' → Eval (.ite c s1 s2) st o st'
  | iteFalse {c : σ → Bool} {s1 s2 : Stmt σ ε} {st st' : CState σ ε} {o : Outcome} :
      c st.user = false → Eval s2 st o st' → Eval (.ite c s1 s2) st o st'
  | forDone {cond incr : Exp σ ε} {b : Stmt σ ε} {st st1 : CState σ ε} :
      eval cond st = (false, st1) → Eval (.for0 cond incr b) st .norm st1
  | forRet {cond incr : Exp σ ε} {b : Stmt σ ε} {st st1 st2 : CState σ ε} :
      eval cond st = (true, st1) → Eval b st1 .ret st2 → Eval (.for0 cond incr b) st .ret st2
  | forBrk {cond incr : Exp σ ε} {b : Stmt σ ε} {st st1 st2 : CState σ ε} :
      eval cond st = (true, st1) → Eval b st1 .brk st2 → Eval (.for0 cond incr b) st .norm st2
  | forStep {cond incr : Exp σ ε} {b : Stmt σ ε} {st st1 st2 st3 : CState σ ε}
      {o o' : Outcome} :
      eval cond st = (true, st1) → Eval b st1 o st2 → o = .norm ∨ o = .cont →
      Eval (.for0 cond incr b) (eval incr st2).2 o' st3 → Eval (.for0 cond incr b) st o' st3
  | forD {a : Act σ ε} {cond incr : Exp σ ε} {b : Stmt σ ε} {st st' : CState σ ε}
      {o : Outcome} :
      Eval (.for0 cond incr b) (runAct a st) o st' → Eval (.forD a cond incr b) st o st'
  | declFor {n : String} {init : Bool} {cond incr : Exp σ ε} {b : Stmt σ ε}
      {st st' : CState σ ε} {o : Outcome} :
      Eval (.for0 cond incr b) (pushFlag n init st) o st' →
      Eval (.declFor n init cond incr b) st o (popFlag st')

/-- Executable interpreter for the same semantics, with fuel consumed at every
step so that concrete executions can be computed. -/
def exec {σ ε : Type} : Nat → Stmt σ ε → CState σ ε → Option (Outcome × CState σ ε)
  | 0, _, _ => none
  | f + 1, s, st =>
    match s with
    | .skip => some (.norm, st)
    | .act a => some (.norm, runAct a st)
    | .brk => some (.brk, st)
    | .cont => some (.cont, st)
    | .ret => some (.ret, st)
    | .seq s1 s2 =>
      match exec f s1 st with
      | none => none
      | some (.norm, st1) => exec f s2 st1
      | some (.brk, st1) => some (.brk, st1)
      | some (.cont, st1) => some (.cont, st1)
      | some (.ret, st1) => some (.ret, st1)
    | .ite c s1 s2 => if c st.user then exec f s1 st else exec f s2 st
    | .for0 c i b =>
      if (eval c st).1 then
        match exec f b (eval c st).2 with
        | none => none
        | some (.ret, st2) => some (.ret, st2)
        | some (.brk, st2) => some (.norm, st2)
        | some (.norm, st2) => exec f (.for0 c i b) (eval i st2).2
        | some (.cont, st2) => exec f (.for0 c i b) (eval i st2).2
      else some (.norm, (eval c st).2)
    | .forD a c i b => exec f (.for0 c i b) (runAct a st)
    | .declFor n init c i b =>
      match exec f (.for0 c i b) (pushFlag n init st) with
      | none => none
      | some (o, st') => some (o, popFlag st')

/-- The manufactured flag name used by every macro expansion
(`_se350_loop_has_run` in `scope.h`). -/
def flagName : String := "_se350_loop_has_run"

/-- Expansion of `SE350_SCOPE(before_expr, after_expr)` applied to a guarded
block (scope.h lines 22-24):
`for (_Bool _se350_loop_has_run = 0;
      _se350_loop_has_run ? 0 : ((void)(before_expr), 1);
      ((void)(after_expr), _se350_loop_has_run = 1))
   for (; !_se350_loop_has_run; _se350_loop_has_run = 1) body`. -/
def SE350_SCOPE {σ ε : Type} (before_expr after_expr : Act σ ε) (body : Stmt σ ε) :
    Stmt σ ε :=
  .declFor flagName false
    (.ternary (.readFlag flagName) (.lit false) (.seqAct before_expr (.lit true)))
    (.seqAct after_expr (.assignFlag flagName true))
    (.for0 (.neg (.readFlag flagName)) (.assignFlag flagName true) body)

/-- The literal `0` passed as `before_expr` by `SE350_SCOPE_EXIT`: evaluated
and discarded by `(void)(0), 1`, so no caller-state change and no event. -/
def zeroExpr {σ ε : Type} : Act σ ε := fun s => (s, [])

/-- Expansion of `SE350_SCOPE_EXIT(after_expr)` (scope.h line 40):
`SE350_SCOPE(0, after_expr)`. -/
def SE350_SCOPE_EXIT {σ ε : Type} (after_expr : Act σ ε) (body : Stmt σ ε) : Stmt σ ε :=
  SE350_SCOPE zeroExpr after_expr body

/-- Expansion of `SE350_USING(decl, after_expr)` applied to a guarded block
(scope.h lines 57-60):
`for (_Bool _se350_loop_has_run = 0; !_se350_loop_has_run;)
   for (decl; !_se350_loop_has_run; ((void)(after_expr), _se350_loop_has_run = 1))
     for (; !_se350_loop_has_run; _se350_loop_has_run = 1) body`.
The empty increment clause of the outermost loop is modelled by the pure
expression `.lit false` (evaluated and discarded, no effect). -/
def SE350_USING {σ ε : Type} (decl after_expr : Act σ ε) (body : Stmt σ ε) : Stmt σ ε :=
  .declFor flagName false (.neg (.readFlag flagName)) (.lit false)
    (.forD decl (.neg (.readFlag flagName))
      (.seqAct after_expr (.assignFlag flagName true))
      (.for0 (.neg (.readFlag flagName)) (.assignFlag flagName true) body))

/-- Expansion of `SE350_SCOPE_BREAK` (scope.h line 70): `break`. -/
def SE350_SCOPE_BREAK {σ ε : Type} : Stmt σ ε := .brk

/-- Caller-written code: the statements a guarded block can be made of.  A
caller statement is straight-line/branching user code over the caller state,
`SE350_SCOPE_BREAK` (`break`), `continue`, `return`, or a nested use of one of
the three scope macros.  Caller code never names the macros' private flag. -/
inductive UserStmt (σ ε : Type) where
  | skip
  | act (a : Act σ ε)
  | brk
  | cont
  | ret
  | seq (s1 s2 : UserStmt σ ε)
  | ite (c : σ → Bool) (s1 s2 : UserStmt σ ε)
  | scope (before_expr after_expr : Act σ ε) (body : UserStmt σ ε)
  | scopeExit (after_expr : Act σ ε) (body : UserStmt σ ε)
  | scopeUsing (decl after_expr : Act σ ε) (body : UserStmt σ ε)

/-- What a completed guard contributes given the before/declare part's trace
`t1` and the guarded block's result: on `return` the after-action is skipped
and `return` propagates; on every other exit (fall-through, `break`,
`continue`) the after-action runs and the construct completes normally. -/
def afterPart {σ ε : Type} (a : Act σ ε) (t1 : List ε) :
    Outcome × σ × List ε → Outcome × σ × List ε
  | (.ret, s2, t2) => (.ret, s2, t1 ++ t2)
  | (_, s2, t2) => (.norm, (a s2).1, t1 ++ t2 ++ (a s2).2)

/-- Denotational semantics of caller code: the outcome, final caller state and
emitted trace.  Total, because the scope constructs run their bodies exactly
once. -/
def run {σ ε : Type} : UserStmt σ ε → σ → Outcome × σ × List ε
  | .skip, s => (.norm, s, [])
  | .act a, s => (.norm, (a s).1, (a s).2)
  | .brk, s => (.brk, s, [])
  | .cont, s => (.cont, s, [])
  | .ret, s => (.ret, s, [])
  | .seq s1 s2, s =>
    match run s1 s with
    | (.norm, s', t1) =>
      match run s2 s' with
      | (o, s'', t2) => (o, s'', t1 ++ t2)
    | r => r
  | .ite c s1 s2, s => if c s then run s1 s else run s2 s
  | .scope b a body, s => afterPart a (b s).2 (run body (b s).1)
  | .scopeExit a body, s => afterPart a [] (run body s)
  | .scopeUsing d a body, s => afterPart a (d s).2 (run body (d s).1)

/-- Compile caller code to the C statement it stands for, expanding each scope
macro exactly as `scope.h` does. -/
def toStmt {σ ε : Type} : UserStmt σ ε → Stmt σ ε
  | .skip => .skip
  | .act a => .act a
  | .brk => SE350_SCOPE_BREAK
  | .cont => .cont
  | .ret => .ret
  | .seq s1 s2 => .seq (toStmt s1) (toStmt s2)
  | .ite c s1 s2 => .ite c (toStmt s1) (toStmt s2)
  | .scope b a body => SE350_SCOPE b a (toStmt body)
  | .scopeExit a body => SE350_SCOPE_EXIT a (toStmt body)
  | .scopeUsing d a body => SE350_USING d a (toStmt body)

/-- Decrement the loop counter of an enclosing caller loop (the counter is the
first component of the caller state). -/
def decCounter {σ ε : Type} : Act (Nat × σ) ε := fun p => ((p.1 - 1, p.2), [])

/-- An enclosing caller `for` loop that runs its body `N` times, counting the
first component of the caller state down from `N` to `0`:
`for (; n != 0; n--) body`. -/
def loopN {σ ε : Type} (body : Stmt (Nat × σ) ε) : Stmt (Nat × σ) ε :=
  .for0 (.userCond (fun p => p.1 != 0)) (.seqAct decCounter (.lit false)) body

/-- Lift a caller action to a caller state extended with a loop counter that
the action does not touch. -/
def liftA {σ ε : Type} (a : Act σ ε) : Act (Nat × σ) ε :=
  fun p => ((p.1, (a p.2).1), (a p.2).2)

/-- Iterate a state transformer `n` times, concatenating the traces of the
iterations in order. -/
def iterD {σ ε : Type} (d : σ → σ × List ε) : Nat → σ → σ × List ε
  | 0, s => (s, [])
  | n + 1, s => ((iterD d n (d s).1).1, (d s).2 ++ (iterD d n (d s).1).2)

/-- The caller-state transformation and trace of one complete activation of
`SE350_SCOPE(b, a)` around a block consisting of the single caller statement
`stp`: run `b`, then `stp`, then `a`, concatenating their traces in order. -/
def guardIter {σ ε : Type} (b stp a : Act σ ε) : σ → σ × List ε := fun s =>
  ((a ((stp ((b s).1)).1)).1,
    (b s).2 ++ (stp ((b s).1)).2 ++ (a ((stp ((b s).1)).1)).2)

/-- A before-action that only emits the event `"before"`. -/
def emitBefore : Act Unit String := fun u => (u, ["before"])

/-- A block statement that has no observable effect. -/
def emitStep : Act Unit String := fun u => (u, [])

/-- An after-action that only emits the event `"after"`. -/
def emitAfter : Act Unit String := fun u => (u, ["after"])

/-- The before-action of the concrete scenario of C8: set `x` to `1`. -/
def xSet1 : Act Int String := fun _ => (1, [])

/-- The after-action of the concrete scenario of C8: set `x` to `2`. -/
def xSet2 : Act Int String := fun _ => (2, [])

/-- The guarded block of the concrete scenario of C8: `assert x == 1`,
modelled as emitting `"assert_pass"` when `x == 1` holds and `"assert_fail"`
otherwise. -/
def assertBlock : UserStmt Int String :=
  .ite (fun x => x == 1)
    (.act (fun x => (x, ["assert_pass"])))
    (.act (fun x => (x, ["assert_fail"])))

/-- The caller-state transformation and trace of one iteration of an
enclosing loop whose body is `SE350_SCOPE(b1, a1)` around the block
`p1; SE350_SCOPE(b2, a2){ p2; SE350_SCOPE_BREAK; ... }; r1`: the inner break
runs the inner after-action `a2` immediately, then the rest of the outer
block `r1`, then the outer after-action `a1`; nothing after the break point
contributes. -/
def innerBreakIter {σ ε : Type} (b1 a1 p1 b2 a2 p2 r1 : Act σ ε) : σ → σ × List ε :=
  fun u =>
    ((a1 ((r1 ((a2 ((p2 ((b2 ((p1 ((b1 u).1)).1)).1)).1)).1)).1)).1,
      (b1 u).2 ++ (p1 ((b1 u).1)).2 ++ (b2 ((p1 ((b1 u).1)).1)).2
        ++ (p2 ((b2 ((p1 ((b1 u).1)).1)).1)).2
        ++ (a2 ((p2 ((b2 ((p1 ((b1 u).1)).1)).1)).1)).2
        ++ (r1 ((a2 ((p2 ((b2 ((p1 ((b1 u).1)).1)).1)).1)).1)).2
        ++ (a1 ((r1 ((a2 ((p2 ((b2 ((p1 ((b1 u).1)).1)).1)).1)).1)).1)).2)

/-- Reading the innermost flag when it is the innermost declaration. -/
theorem lookupFlag_head (b : Bool) (fs : List (String × Bool)) :
    lookupFlag ((flagName, b) :: fs) flagName = b := by
  simp [lookupFlag]

/-- Assigning the innermost flag when it is the innermost declaration. -/
theorem setFlag_head (b v : Bool) (fs : List (String × Bool)) :
    setFlag ((flagName, b) :: fs) flagName v = (flagName, v) :: fs := by
  simp [setFlag]

/-- Core lemma for `SE350_SCOPE`: if the guarded block `bs`, started in any
state, finishes with outcome `(d s).1`, caller state `(d s).2.1` and emitted
trace `(d s).2.2` (leaving the flag stack alone), then the whole macro
expansion behaves as `afterPart`: `before_expr` runs first, the block runs
once, and `after_expr` runs exactly when the block does not exit by `return`;
the manufactured flag is scoped away. -/
theorem SCOPE_eval {σ ε : Type} (b a : Act σ ε) (bs : Stmt σ ε)
    (d : σ → Outcome × σ × List ε)
    (hbs : ∀ (flags : List (String × Bool)) (s : σ) (tr : List ε),
      Eval bs ⟨flags, s, tr⟩ (d s).1 ⟨flags, (d s).2.1, tr ++ (d s).2.2⟩)
    (flags : List (String × Bool)) (s : σ) (tr : List ε) :
    Eval (SE350_SCOPE b a bs) ⟨flags, s, tr⟩ (afterPart a (b s).2 (d (b s).1)).1
      ⟨flags, (afterPart a (b s).2 (d (b s).1)).2.1,
        tr ++ (afterPart a (b s).2 (d (b s).1)).2.2⟩ := by
  have hbs' := hbs ((flagName, false) :: flags) (b s).1 (tr ++ (b s).2)
  rcases hd : d (b s).1 with ⟨ob, s2, t2⟩
  rw [hd] at hbs'
  simp only [SE350_SCOPE]
  have hc1 : eval (Exp.ternary (.readFlag flagName) (.lit false)
        (.seqAct b (.lit true))) (⟨(flagName, false) :: flags, s, tr⟩ : CState σ ε)
      = (true, ⟨(flagName, false) :: flags, (b s).1, tr ++ (b s).2⟩) := by
    simp [eval, lookupFlag, runAct]
  have hcI : eval (Exp.neg (.readFlag flagName))
        (⟨(flagName, false) :: flags, (b s).1, tr ++ (b s).2⟩ : CState σ ε)
      = (true, ⟨(flagName, false) :: flags, (b s).1, tr ++ (b s).2⟩) := by
    simp [eval, lookupFlag]
  cases ob with
  | ret =>
    have hInner : Eval (.for0 (.neg (.readFlag flagName)) (.assignFlag flagName true) bs)
        ⟨(flagName, false) :: flags, (b s).1, tr ++ (b s).2⟩ .ret
        ⟨(flagName, false) :: flags, s2, tr ++ (b s).2 ++ t2⟩ :=
      Eval.forRet hcI hbs'
    have hOuter : Eval (.for0
          (Exp.ternary (.readFlag flagName) (.lit false) (.seqAct b (.lit true)))
          (Exp.seqAct a (.assignFlag flagName true))
          (.for0 (.neg (.readFlag flagName)) (.assignFlag flagName true) bs))
        ⟨(flagName, false) :: flags, s, tr⟩ .ret
        ⟨(flagName, false) :: flags, s2, tr ++ (b s).2 ++ t2⟩ :=
      Eval.forRet hc1 hInner
    have hFull : Eval (Stmt.declFor flagName false
          (Exp.ternary (.readFlag flagName) (.lit false) (.seqAct b (.lit true)))
          (Exp.seqAct a (.assignFlag flagName true))
          (.for0 (.neg (.readFlag flagName)) (.assignFlag flagName true) bs))
        ⟨flags, s, tr⟩ .ret
        (popFlag ⟨(flagName, false) :: flags, s2, tr ++ (b s).2 ++ t2⟩) :=
      Eval.declFor hOuter
    simpa [afterPart, popFlag, pushFlag, List.append_assoc] using hFull
  | norm =>
    have hIncrI : eval (Exp.assignFlag flagName true)
          (⟨(flagName, false) :: flags, s2, tr ++ (b s).2 ++ t2⟩ : CState σ ε)
        = (true, ⟨(flagName, true) :: flags, s2, tr ++ (b s).2 ++ t2⟩) := by
      simp [eval, setFlag]
    have hcI3 : eval (Exp.neg (.readFlag flagName))
          (⟨(flagName, true) :: flags, s2, tr ++ (b s).2 ++ t2⟩ : CState σ ε)
        = (false, ⟨(flagName, true) :: flags, s2, tr ++ (b s).2 ++ t2⟩) := by
      simp [eval, lookupFlag]
    have hLast : Eval (.for0 (.neg (.readFlag flagName)) (.assignFlag flagName true) bs)
        (eval (Exp.assignFlag flagName true)
          (⟨(flagName, false) :: flags, s2, tr ++ (b s).2 ++ t2⟩ : CState σ ε)).2 .norm
        ⟨(flagName, true) :: flags, s2, tr ++ (b s).2 ++ t2⟩ := by
      rw [hIncrI]; exact Eval.forDone hcI3
    have hInner : Eval (.for0 (.neg (.readFlag flagName)) (.assignFlag flagName true) bs)
        ⟨(flagName, false) :: flags, (b s).1, tr ++ (b s).2⟩ .norm
        ⟨(flagName, true) :: flags, s2, tr ++ (b s).2 ++ t2⟩ :=
      Eval.forStep hcI hbs' (Or.inl rfl) hLast
    have hIncrO : eval (Exp.seqAct a (.assignFlag flagName true))
          (⟨(flagName, true) :: flags, s2, tr ++ (b s).2 ++ t2⟩ : CState σ ε)
        = (true, ⟨(flagName, true) :: flags, (a s2).1, tr ++ (b s).2 ++ t2 ++ (a s2).2⟩) := by
      simp [eval, runAct, setFlag]
    have hcO5 : eval (Exp.ternary (.readFlag flagName) (.lit false)
          (.seqAct b (.lit true)))
          (⟨(flagName, true) :: flags, (a s2).1, tr ++ (b s).2 ++ t2 ++ (a s2).2⟩ : CState σ ε)
        = (false, ⟨(flagName, true) :: flags, (a s2).1, tr ++ (b s).2 ++ t2 ++ (a s2).2⟩) := by
      simp [eval, lookupFlag]
    have hOuterLast : Eval (.for0
          (Exp.ternary (.readFlag flagName) (.lit false) (.seqAct b (.lit true)))
          (Exp.seqAct a (.assignFlag flagName true))
          (.for0 (.neg (.readFlag flagName)) (.assignFlag flagName true) bs))
        (eval (Exp.seqAct a (.assignFlag flagName true))
          (⟨(flagName, true) :: flags, s2, tr ++ (b s).2 ++ t2⟩ : CState σ ε)).2 .norm
        ⟨(flagName, true) :: flags, (a s2).1, tr ++ (b s).2 ++ t2 ++ (a s2).2⟩ := by
      rw [hIncrO]; exact Eval.forDone hcO5
    have hOuter := Eval.forStep hc1 hInner (Or.inl rfl) hOuterLast
    have hFull : Eval (Stmt.declFor flagName false
          (Exp.ternary (.readFlag flagName) (.lit false) (.seqAct b (.lit true)))
          (Exp.seqAct a (.assignFlag flagName true))
          (.for0 (.neg (.readFlag flagName)) (.assignFlag flagName true) bs))
        ⟨flags, s, tr⟩ .norm
        (popFlag ⟨(flagName, true) :: flags, (a s2).1, tr ++ (b s).2 ++ t2 ++ (a s2).2⟩) :=
      Eval.declFor hOuter
    simpa [afterPart, popFlag, pushFlag, List.append_assoc] using hFull
  | cont =>
    have hIncrI : eval (Exp.assignFlag flagName true)
          (⟨(flagName, false) :: flags, s2, tr ++ (b s).2 ++ t2⟩ : CState σ ε)
        = (true, ⟨(flagName, true) :: flags, s2, tr ++ (b s).2 ++ t2⟩) := by
      simp [eval, setFlag]
    have hcI3 : eval (Exp.neg (.readFlag flagName))
          (⟨(flagName, true) :: flags, s2, tr ++ (b s).2 ++ t2⟩ : CState σ ε)
        = (false, ⟨(flagName, true) :: flags, s2, tr ++ (b s).2 ++ t2⟩) := by
      simp [eval, lookupFlag]
    have hLast : Eval (.for0 (.neg (.readFlag flagName)) (.assignFlag flagName true) bs)
        (eval (Exp.assignFlag flagName true)
          (⟨(flagName, false) :: flags, s2, tr ++ (b s).2 ++ t2⟩ : CState σ ε)).2 .norm
        ⟨(flagName, true) :: flags, s2, tr ++ (b s).2 ++ t2⟩ := by
      rw [hIncrI]; exact Eval.forDone hcI3
    have hInner : Eval (.for0 (.neg (.readFlag flagName)) (.assignFlag flagName true) bs)
        ⟨(flagName, false) :: flags, (b s).1, tr ++ (b s).2⟩ .norm
        ⟨(flagName, true) :: flags, s2, tr ++ (b s).2 ++ t2⟩ :=
      Eval.forStep hcI hbs' (Or.inr rfl) hLast
    have hIncrO : eval (Exp.seqAct a (.assignFlag flagName true))
          (⟨(flagName, true) :: flags, s2, tr ++ (b s).2 ++ t2⟩ : CState σ ε)
        = (true, ⟨(flagName, true) :: flags, (a s2).1, tr ++ (b s).2 ++ t2 ++ (a s2).2⟩) := by
      simp [eval, runAct, setFlag]
    have hcO5 : eval (Exp.ternary (.readFlag flagName) (.lit false)
          (.seqAct b (.lit true)))
          (⟨(flagName, true) :: flags, (a s2).1, tr ++ (b s).2 ++ t2 ++ (a s2).2⟩ : CState σ ε)
        = (false, ⟨(flagName, true) :: flags, (a s2).1, tr ++ (b s).2 ++ t2 ++ (a s2).2⟩) := by
      simp [eval, lookupFlag]
    have hOuterLast : Eval (.for0
          (Exp.ternary (.readFlag flagName) (.lit false) (.seqAct b (.lit true)))
          (Exp.seqAct a (.assignFlag flagName true))
          (.for0 (.neg (.readFlag flagName)) (.assignFlag flagName true) bs))
        (eval (Exp.seqAct a (.assignFlag flagName true))
          (⟨(flagName, true) :: flags, s2, tr ++ (b s).2 ++ t2⟩ : CState σ ε)).2 .norm
        ⟨(flagName, true) :: flags, (a s2).1, tr ++ (b s).2 ++ t2 ++ (a s2).2⟩ := by
      rw [hIncrO]; exact Eval.forDone hcO5
    have hOuter := Eval.forStep hc1 hInner (Or.inl rfl) hOuterLast
    have hFull : Eval (Stmt.declFor flagName false
          (Exp.ternary (.readFlag flagName) (.lit false) (.seqAct b (.lit true)))
          (Exp.seqAct a (.assignFlag flagName true))
          (.for0 (.neg (.readFlag flagName)) (.assignFlag flagName true) bs))
        ⟨flags, s, tr⟩ .norm
        (popFlag ⟨(flagName, true) :: flags, (a s2).1, tr ++ (b s).2 ++ t2 ++ (a s2).2⟩) :=
      Eval.declFor hOuter
    simpa [afterPart, popFlag, pushFlag, List.append_assoc] using hFull
  | brk =>
    have hInner : Eval (.for0 (.neg (.readFlag flagName)) (.assignFlag flagName true) bs)
        ⟨(flagName, false) :: flags, (b s).1, tr ++ (b s).2⟩ .norm
        ⟨(flagName, false) :: flags, s2, tr ++ (b s).2 ++ t2⟩ :=
      Eval.forBrk hcI hbs'
    have hIncrO : eval (Exp.seqAct a (.assignFlag flagName true))
          (⟨(flagName, false) :: flags, s2, tr ++ (b s).2 ++ t2⟩ : CState σ ε)
        = (true, ⟨(flagName, true) :: flags, (a s2).1, tr ++ (b s).2 ++ t2 ++ (a s2).2⟩) := by
      simp [eval, runAct, setFlag]
    have hcO5 : eval (Exp.ternary (.readFlag flagName) (.lit false)
          (.seqAct b (.lit true)))
          (⟨(flagName, true) :: flags, (a s2).1, tr ++ (b s).2 ++ t2 ++ (a s2).2⟩ : CState σ ε)
        = (false, ⟨(flagName, true) :: flags, (a s2).1, tr ++ (b s).2 ++ t2 ++ (a s2).2⟩) := by
      simp [eval, lookupFlag]
    have hOuterLast : Eval (.for0
          (Exp.ternary (.readFlag flagName) (.lit false) (.seqAct b (.lit true)))
          (Exp.seqAct a (.assignFlag flagName true))
          (.for0 (.neg (.readFlag flagName)) (.assignFlag flagName true) bs))
        (eval (Exp.seqAct a (.assignFlag flagName true))
          (⟨(flagName, false) :: flags, s2, tr ++ (b s).2 ++ t2⟩ : CState σ ε)).2 .norm
        ⟨(flagName, true) :: flags, (a s2).1, tr ++ (b s).2 ++ t2 ++ (a s2).2⟩ := by
      rw [hIncrO]; exact Eval.forDone hcO5
    have hOuter := Eval.forStep hc1 hInner (Or.inl rfl) hOuterLast
    have hFull : Eval (Stmt.declFor flagName false
          (Exp.ternary (.readFlag flagName) (.lit false) (.seqAct b (.lit true)))
          (Exp.seqAct a (.assignFlag flagName true))
          (.for0 (.neg (.readFlag flagName)) (.assignFlag flagName true) bs))
        ⟨flags, s, tr⟩ .norm
        (popFlag ⟨(flagName, true) :: flags, (a s2).1, tr ++ (b s).2 ++ t2 ++ (a s2).2⟩) :=
      Eval.declFor hOuter
    simpa [afterPart, popFlag, pushFlag, List.append_assoc] using hFull

/-- Core lemma for `SE350_USING`: with the guarded block's behaviour given by
`d`, the expansion declares (runs `decl`) first, runs the block once, and runs
`after_expr` exactly when the block does not exit by `return`; the
manufactured flag is scoped away. -/
theorem USING_eval {σ ε : Type} (dc a : Act σ ε) (bs : Stmt σ ε)
    (d : σ → Outcome × σ × List ε)
    (hbs : ∀ (flags : List (String × Bool)) (s : σ) (tr : List ε),
      Eval bs ⟨flags, s, tr⟩ (d s).1 ⟨flags, (d s).2.1, tr ++ (d s).2.2⟩)
    (flags : List (String × Bool)) (s : σ) (tr : List ε) :
    Eval (SE350_USING dc a bs) ⟨flags, s, tr⟩ (afterPart a (dc s).2 (d (dc s).1)).1
      ⟨flags, (afterPart a (dc s).2 (d (dc s).1)).2.1,
        tr ++ (afterPart a (dc s).2 (d (dc s).1)).2.2⟩ := by
  have hbs' := hbs ((flagName, false) :: flags) (dc s).1 (tr ++ (dc s).2)
  rcases hd : d (dc s).1 with ⟨ob, s2, t2⟩
  rw [hd] at hbs'
  simp only [SE350_USING]
  have hcP : eval (Exp.neg (.readFlag flagName))
        (⟨(flagName, false) :: flags, s, tr⟩ : CState σ ε)
      = (true, ⟨(flagName, false) :: flags, s, tr⟩) := by
    simp [eval, lookupFlag]
  have hc2 : eval (Exp.neg (.readFlag flagName))
        (⟨(flagName, false) :: flags, (dc s).1, tr ++ (dc s).2⟩ : CState σ ε)
      = (true, ⟨(flagName, false) :: flags, (dc s).1, tr ++ (dc s).2⟩) := by
    simp [eval, lookupFlag]
  have hMidOf : ∀ st4 : CState σ ε,
      Eval (.for0 (.neg (.readFlag flagName)) (.assignFlag flagName true) bs)
        ⟨(flagName, false) :: flags, (dc s).1, tr ++ (dc s).2⟩ .norm st4 →
      st4.user = s2 → st4.trace = tr ++ (dc s).2 ++ t2 →
      setFlag st4.flags flagName true = (flagName, true) :: flags →
      Eval (.forD dc (.neg (.readFlag flagName))
          (.seqAct a (.assignFlag flagName true))
          (.for0 (.neg (.readFlag flagName)) (.assignFlag flagName true) bs))
        ⟨(flagName, false) :: flags, s, tr⟩ .norm
        ⟨(flagName, true) :: flags, (a s2).1, tr ++ (dc s).2 ++ t2 ++ (a s2).2⟩ := by
    intro st4 hInner hu ht hf
    have hIncrM : eval (Exp.seqAct a (.assignFlag flagName true)) st4
        = (true, ⟨(flagName, true) :: flags, (a s2).1,
            tr ++ (dc s).2 ++ t2 ++ (a s2).2⟩) := by
      simp [eval, runAct, hu, ht, hf]
    have hc5 : eval (Exp.neg (.readFlag flagName))
          (⟨(flagName, true) :: flags, (a s2).1,
            tr ++ (dc s).2 ++ t2 ++ (a s2).2⟩ : CState σ ε)
        = (false, ⟨(flagName, true) :: flags, (a s2).1,
            tr ++ (dc s).2 ++ t2 ++ (a s2).2⟩) := by
      simp [eval, lookupFlag]
    have hMidLast : Eval (.for0 (.neg (.readFlag flagName))
          (.seqAct a (.assignFlag flagName true))
          (.for0 (.neg (.readFlag flagName)) (.assignFlag flagName true) bs))
        (eval (Exp.seqAct a (.assignFlag flagName true)) st4).2 .norm
        ⟨(flagName, true) :: flags, (a s2).1, tr ++ (dc s).2 ++ t2 ++ (a s2).2⟩ := by
      rw [hIncrM]; exact Eval.forDone hc5
    exact Eval.forD (Eval.forStep hc2 hInner (Or.inl rfl) hMidLast)
  cases ob with
  | ret =>
    have hInner : Eval (.for0 (.neg (.readFlag flagName)) (.assignFlag flagName true) bs)
        ⟨(flagName, false) :: flags, (dc s).1, tr ++ (dc s).2⟩ .ret
        ⟨(flagName, false) :: flags, s2, tr ++ (dc s).2 ++ t2⟩ :=
      Eval.forRet hc2 hbs'
    have hMid : Eval (.forD dc (.neg (.readFlag flagName))
          (.seqAct a (.assignFlag flagName true))
          (.for0 (.neg (.readFlag flagName)) (.assignFlag flagName true) bs))
        ⟨(flagName, false) :: flags, s, tr⟩ .ret
        ⟨(flagName, false) :: flags, s2, tr ++ (dc s).2 ++ t2⟩ :=
      Eval.forD (Eval.forRet hc2 hInner)
    have hOuter : Eval (.for0 (.neg (.readFlag flagName)) (.lit false)
          (.forD dc (.neg (.readFlag flagName))
            (.seqAct a (.assignFlag flagName true))
            (.for0 (.neg (.readFlag flagName)) (.assignFlag flagName true) bs)))
        ⟨(flagName, false) :: flags, s, tr⟩ .ret
        ⟨(flagName, false) :: flags, s2, tr ++ (dc s).2 ++ t2⟩ :=
      Eval.forRet hcP hMid
    have hFull : Eval (Stmt.declFor flagName false (.neg (.readFlag flagName)) (.lit false)
          (.forD dc (.neg (.readFlag flagName))
            (.seqAct a (.assignFlag flagName true))
            (.for0 (.neg (.readFlag flagName)) (.assignFlag flagName true) bs)))
        ⟨flags, s, tr⟩ .ret
        (popFlag ⟨(flagName, false) :: flags, s2, tr ++ (dc s).2 ++ t2⟩) :=
      Eval.declFor hOuter
    simpa [afterPart, popFlag, List.append_assoc] using hFull
  | brk =>
    have hInner : Eval (.for0 (.neg (.readFlag flagName)) (.assignFlag flagName true) bs)
        ⟨(flagName, false) :: flags, (dc s).1, tr ++ (dc s).2⟩ .norm
        ⟨(flagName, false) :: flags, s2, tr ++ (dc s).2 ++ t2⟩ :=
      Eval.forBrk hc2 hbs'
    have hMid := hMidOf _ hInner rfl rfl (by simp [setFlag])
    have hOuterLast : Eval (.for0 (.neg (.readFlag flagName)) (.lit false)
          (.forD dc (.neg (.readFlag flagName))
            (.seqAct a (.assignFlag flagName true))
            (.for0 (.neg (.readFlag flagName)) (.assignFlag flagName true) bs)))
        (eval (Exp.lit false)
          (⟨(flagName, true) :: flags, (a s2).1,
            tr ++ (dc s).2 ++ t2 ++ (a s2).2⟩ : CState σ ε)).2 .norm
        ⟨(flagName, true) :: flags, (a s2).1, tr ++ (dc s).2 ++ t2 ++ (a s2).2⟩ :=
      Eval.forDone (by simp [eval, lookupFlag])
    have hOuter := Eval.forStep hcP hMid (Or.inl rfl) hOuterLast
    have hFull : Eval (Stmt.declFor flagName false (.neg (.readFlag flagName)) (.lit false)
          (.forD dc (.neg (.readFlag flagName))
            (.seqAct a (.assignFlag flagName true))
            (.for0 (.neg (.readFlag flagName)) (.assignFlag flagName true) bs)))
        ⟨flags, s, tr⟩ .norm
        (popFlag ⟨(flagName, true) :: flags, (a s2).1,
          tr ++ (dc s).2 ++ t2 ++ (a s2).2⟩) :=
      Eval.declFor hOuter
    simpa [afterPart, popFlag, List.append_assoc] using hFull
  | norm =>
    have hIncrI : eval (Exp.assignFlag flagName true)
          (⟨(flagName, false) :: flags, s2, tr ++ (dc s).2 ++ t2⟩ : CState σ ε)
        = (true, ⟨(flagName, true) :: flags, s2, tr ++ (dc s).2 ++ t2⟩) := by
      simp [eval, setFlag]
    have hcI3 : eval (Exp.neg (.readFlag flagName))
          (⟨(flagName, true) :: flags, s2, tr ++ (dc s).2 ++ t2⟩ : CState σ ε)
        = (false, ⟨(flagName, true) :: flags, s2, tr ++ (dc s).2 ++ t2⟩) := by
      simp [eval, lookupFlag]
    have hLast : Eval (.for0 (.neg (.readFlag flagName)) (.assignFlag flagName true) bs)
        (eval (Exp.assignFlag flagName true)
          (⟨(flagName, false) :: flags, s2, tr ++ (dc s).2 ++ t2⟩ : CState σ ε)).2 .norm
        ⟨(flagName, true) :: flags, s2, tr ++ (dc s).2 ++ t2⟩ := by
      rw [hIncrI]; exact Eval.forDone hcI3
    have hInner : Eval (.for0 (.neg (.readFlag flagName)) (.assignFlag flagName true) bs)
        ⟨(flagName, false) :: flags, (dc s).1, tr ++ (dc s).2⟩ .norm
        ⟨(flagName, true) :: flags, s2, tr ++ (dc s).2 ++ t2⟩ :=
      Eval.forStep hc2 hbs' (Or.inl rfl) hLast
    have hMid := hMidOf _ hInner rfl rfl (by simp [setFlag])
    have hOuterLast : Eval (.for0 (.neg (.readFlag flagName)) (.lit false)
          (.forD dc (.neg (.readFlag flagName))
            (.seqAct a (.assignFlag flagName true))
            (.for0 (.neg (.readFlag flagName)) (.assignFlag flagName true) bs)))
        (eval (Exp.lit false)
          (⟨(flagName, true) :: flags, (a s2).1,
            tr ++ (dc s).2 ++ t2 ++ (a s2).2⟩ : CState σ ε)).2 .norm
        ⟨(flagName, true) :: flags, (a s2).1, tr ++ (dc s).2 ++ t2 ++ (a s2).2⟩ :=
      Eval.forDone (by simp [eval, lookupFlag])
    have hOuter := Eval.forStep hcP hMid (Or.inl rfl) hOuterLast
    have hFull : Eval (Stmt.declFor flagName false (.neg (.readFlag flagName)) (.lit false)
          (.forD dc (.neg (.readFlag flagName))
            (.seqAct a (.assignFlag flagName true))
            (.for0 (.neg (.readFlag flagName)) (.assignFlag flagName true) bs)))
        ⟨flags, s, tr⟩ .norm
        (popFlag ⟨(flagName, true) :: flags, (a s2).1,
          tr ++ (dc s).2 ++ t2 ++ (a s2).2⟩) :=
      Eval.declFor hOuter
    simpa [afterPart, popFlag, List.append_assoc] using hFull
  | cont =>
    have hIncrI : eval (Exp.assignFlag flagName true)
          (⟨(flagName, false) :: flags, s2, tr ++ (dc s).2 ++ t2⟩ : CState σ ε)
        = (true, ⟨(flagName, true) :: flags, s2, tr ++ (dc s).2 ++ t2⟩) := by
      simp [eval, setFlag]
    have hcI3 : eval (Exp.neg (.readFlag flagName))
          (⟨(flagName, true) :: flags, s2, tr ++ (dc s).2 ++ t2⟩ : CState σ ε)
        = (false, ⟨(flagName, true) :: flags, s2, tr ++ (dc s).2 ++ t2⟩) := by
      simp [eval, lookupFlag]
    have hLast : Eval (.for0 (.neg (.readFlag flagName)) (.assignFlag flagName true) bs)
        (eval (Exp.assignFlag flagName true)
          (⟨(flagName, false) :: flags, s2, tr ++ (dc s).2 ++ t2⟩ : CState σ ε)).2 .norm
        ⟨(flagName, true) :: flags, s2, tr ++ (dc s).2 ++ t2⟩ := by
      rw [hIncrI]; exact Eval.forDone hcI3
    have hInner : Eval (.for0 (.neg (.readFlag flagName)) (.assignFlag flagName true) bs)
        ⟨(flagName, false) :: flags, (dc s).1, tr ++ (dc s).2⟩ .norm
        ⟨(flagName, true) :: flags, s2, tr ++ (dc s).2 ++ t2⟩ :=
      Eval.forStep hc2 hbs' (Or.inr rfl) hLast
    have hMid := hMidOf _ hInner rfl rfl (by simp [setFlag])
    have hOuterLast : Eval (.for0 (.neg (.readFlag flagName)) (.lit false)
          (.forD dc (.neg (.readFlag flagName))
            (.seqAct a (.assignFlag flagName true))
            (.for0 (.neg (.readFlag flagName)) (.assignFlag flagName true) bs)))
        (eval (Exp.lit false)
          (⟨(flagName, true) :: flags, (a s2).1,
            tr ++ (dc s).2 ++ t2 ++ (a s2).2⟩ : CState σ ε)).2 .norm
        ⟨(flagName, true) :: flags, (a s2).1, tr ++ (dc s).2 ++ t2 ++ (a s2).2⟩ :=
      Eval.forDone (by simp [eval, lookupFlag])
    have hOuter := Eval.forStep hcP hMid (Or.inl rfl) hOuterLast
    have hFull : Eval (Stmt.declFor flagName false (.neg (.readFlag flagName)) (.lit false)
          (.forD dc (.neg (.readFlag flagName))
            (.seqAct a (.assignFlag flagName true))
            (.for0 (.neg (.readFlag flagName)) (.assignFlag flagName true) bs)))
        ⟨flags, s, tr⟩ .norm
        (popFlag ⟨(flagName, true) :: flags, (a s2).1,
          tr ++ (dc s).2 ++ t2 ++ (a s2).2⟩) :=
      Eval.declFor hOuter
    simpa [afterPart, popFlag, List.append_assoc] using hFull

/-- Bridge theorem: compiling caller code (with each scope macro expanded
exactly as `scope.h` expands it) and executing it under the C big-step
semantics yields precisely the outcome, caller state and trace of the
denotational semantics `run`, for any surrounding flag stack and any trace
already emitted; the flag stack is left unchanged. -/
theorem toStmt_eval {σ ε : Type} (ub : UserStmt σ ε) :
    ∀ (flags : List (String × Bool)) (s : σ) (tr : List ε),
      Eval (toStmt ub) ⟨flags, s, tr⟩ (run ub s).1
        ⟨flags, (run ub s).2.1, tr ++ (run ub s).2.2⟩ := by
  induction ub with
  | skip =>
    intro flags s tr
    simpa [run, toStmt] using (Eval.skip (σ := σ) (ε := ε))
  | act a =>
    intro flags s tr
    simpa [run, toStmt, runAct] using (Eval.act (a := a))
  | brk =>
    intro flags s tr
    simpa [run, toStmt, SE350_SCOPE_BREAK] using (Eval.brk (σ := σ) (ε := ε))
  | cont =>
    intro flags s tr
    simpa [run, toStmt] using (Eval.cont (σ := σ) (ε := ε))
  | ret =>
    intro flags s tr
    simpa [run, toStmt] using (Eval.ret (σ := σ) (ε := ε))
  | seq s1 s2 ih1 ih2 =>
    intro flags s tr
    rcases h1 : run s1 s with ⟨o1, s1', t1⟩
    have H1 := ih1 flags s tr
    rw [h1] at H1
    cases o1 with
    | norm =>
      rcases h2 : run s2 s1' with ⟨o2, s2', t2⟩
      have H2 := ih2 flags s1' (tr ++ t1)
      rw [h2] at H2
      have H := Eval.seqNorm H1 H2
      simp only [toStmt, run, h1, h2]
      simpa [List.append_assoc] using H
    | brk =>
      simp only [toStmt, run, h1]
      exact Eval.seqAbrupt H1 (by simp)
    | cont =>
      simp only [toStmt, run, h1]
      exact Eval.seqAbrupt H1 (by simp)
    | ret =>
      simp only [toStmt, run, h1]
      exact Eval.seqAbrupt H1 (by simp)
  | ite c s1 s2 ih1 ih2 =>
    intro flags s tr
    cases hc : c s with
    | true =>
      simp only [toStmt, run, hc, if_true]
      exact Eval.iteTrue hc (ih1 flags s tr)
    | false =>
      simp only [toStmt, run, hc, if_false]
      exact Eval.iteFalse hc (ih2 flags s tr)
  | scope b a body ih =>
    intro flags s tr
    simpa [toStmt, run] using SCOPE_eval b a (toStmt body) (fun u => run body u) ih flags s tr
  | scopeExit a body ih =>
    intro flags s tr
    simpa [toStmt, run, SE350_SCOPE_EXIT, zeroExpr] using
      SCOPE_eval zeroExpr a (toStmt body) (fun u => run body u) ih flags s tr
  | scopeUsing dc a body ih =>
    intro flags s tr
    simpa [toStmt, run] using USING_eval dc a (toStmt body) (fun u => run body u) ih flags s tr

/-- The big-step semantics is deterministic: a statement started in a given
state has at most one outcome and final state. -/
theorem Eval_det {σ ε : Type} {s : Stmt σ ε} {st : CState σ ε} {o1 : Outcome}
    {st1 : CState σ ε} (h1 : Eval s st o1 st1) :
    ∀ {o2 : Outcome} {st2 : CState σ ε}, Eval s st o2 st2 → o1 = o2 ∧ st1 = st2 := by
  induction h1 with
  | skip => intro o2 st2 h2; cases h2; exact ⟨rfl, rfl⟩
  | act => intro o2 st2 h2; cases h2; exact ⟨rfl, rfl⟩
  | brk => intro o2 st2 h2; cases h2; exact ⟨rfl, rfl⟩
  | cont => intro o2 st2 h2; cases h2; exact ⟨rfl, rfl⟩
  | ret => intro o2 st2 h2; cases h2; exact ⟨rfl, rfl⟩
  | seqNorm e1 e2 ih1 ih2 =>
    intro o2 st2 h2
    cases h2 with
    | seqNorm f1 f2 =>
      obtain ⟨-, h⟩ := ih1 f1
      subst h
      exact ih2 f2
    | seqAbrupt f1 hne =>
      obtain ⟨ho, -⟩ := ih1 f1
      exact absurd ho.symm hne
  | seqAbrupt e1 hne ih1 =>
    intro o2 st2 h2
    cases h2 with
    | seqNorm f1 f2 =>
      obtain ⟨ho, -⟩ := ih1 f1
      exact absurd ho hne
    | seqAbrupt f1 hne2 => exact ih1 f1
  | iteTrue hc e ih =>
    intro o2 st2 h2
    cases h2 with
    | iteTrue hc2 f => exact ih f
    | iteFalse hc2 f => rw [hc] at hc2; cases hc2
  | iteFalse hc e ih =>
    intro o2 st2 h2
    cases h2 with
    | iteTrue hc2 f => rw [hc] at hc2; cases hc2
    | iteFalse hc2 f => exact ih f
  | forDone hc =>
    intro o2 st2 h2
    cases h2 with
    | forDone hc2 =>
      rw [hc] at hc2
      injection hc2 with hA hB
      exact ⟨rfl, hB⟩
    | forRet hc2 f => rw [hc] at hc2; injection hc2 with hA hB; cases hA
    | forBrk hc2 f => rw [hc] at hc2; injection hc2 with hA hB; cases hA
    | forStep hc2 f hor g => rw [hc] at hc2; injection hc2 with hA hB; cases hA
  | forRet hc e ih =>
    intro o2 st2 h2
    cases h2 with
    | forDone hc2 => rw [hc] at hc2; injection hc2 with hA hB; cases hA
    | forRet hc2 f =>
      rw [hc] at hc2; injection hc2 with hA hB; subst hB
      exact ⟨rfl, (ih f).2⟩
    | forBrk hc2 f =>
      rw [hc] at hc2; injection hc2 with hA hB; subst hB
      obtain ⟨ho, -⟩ := ih f
      cases ho
    | forStep hc2 f hor g =>
      rw [hc] at hc2; injection hc2 with hA hB; subst hB
      obtain ⟨ho, -⟩ := ih f
      rcases hor with h' | h' <;> rw [← ho] at h' <;> cases h'
  | forBrk hc e ih =>
    intro o2 st2 h2
    cases h2 with
    | forDone hc2 => rw [hc] at hc2; injection hc2 with hA hB; cases hA
    | forRet hc2 f =>
      rw [hc] at hc2; injection hc2 with hA hB; subst hB
      obtain ⟨ho, -⟩ := ih f
      cases ho
    | forBrk hc2 f =>
      rw [hc] at hc2; injection hc2 with hA hB; subst hB
      exact ⟨rfl, (ih f).2⟩
    | forStep hc2 f hor g =>
      rw [hc] at hc2; injection hc2 with hA hB; subst hB
      obtain ⟨ho, -⟩ := ih f
      rcases hor with h' | h' <;> rw [← ho] at h' <;> cases h'
  | forStep hc e hor g ihb ihl =>
    intro o2 st2 h2
    cases h2 with
    | forDone hc2 => rw [hc] at hc2; injection hc2 with hA hB; cases hA
    | forRet hc2 f =>
      rw [hc] at hc2; injection hc2 with hA hB; subst hB
      obtain ⟨ho, -⟩ := ihb f
      rcases hor with h' | h' <;> rw [h'] at ho <;> cases ho
    | forBrk hc2 f =>
      rw [hc] at hc2; injection hc2 with hA hB; subst hB
      obtain ⟨ho, -⟩ := ihb f
      rcases hor with h' | h' <;> rw [h'] at ho <;> cases ho
    | forStep hc2 f hor2 g2 =>
      rw [hc] at hc2; injection hc2 with hA hB; subst hB
      obtain ⟨ho, hs⟩ := ihb f
      subst hs
      exact ihl g2
  | forD e ih =>
    intro o2 st2 h2
    cases h2 with
    | forD f => exact ih f
  | declFor e ih =>
    intro o2 st2 h2
    cases h2 with
    | declFor f =>
      obtain ⟨ho, hs⟩ := ih f
      subst hs
      exact ⟨ho, rfl⟩

/-- An enclosing caller `for` loop iterated `N` times: if each execution of
`body` completes normally, leaves the loop counter alone, and transforms the
rest of the caller state by `d`, then the loop runs `body` exactly `N` times,
producing the `N` concatenated per-iteration traces in order. -/
theorem loopN_eval {σ ε : Type} (body : Stmt (Nat × σ) ε) (d : σ → σ × List ε)
    (hbody : ∀ (flags : List (String × Bool)) (n : Nat) (s : σ) (tr : List ε),
      Eval body ⟨flags, (n, s), tr⟩ .norm ⟨flags, (n, (d s).1), tr ++ (d s).2⟩) :
    ∀ (N : Nat) (flags : List (String × Bool)) (s : σ) (tr : List ε),
      Eval (loopN body) ⟨flags, (N, s), tr⟩ .norm
        ⟨flags, (0, (iterD d N s).1), tr ++ (iterD d N s).2⟩ := by
  intro N
  induction N with
  | zero =>
    intro flags s tr
    have hc : eval (Exp.userCond (fun p => p.1 != 0))
        (⟨flags, (0, s), tr⟩ : CState (Nat × σ) ε) = (false, ⟨flags, (0, s), tr⟩) := by
      simp [eval]
    simpa [loopN, iterD] using Eval.forDone hc
  | succ n ih =>
    intro flags s tr
    have hc : eval (Exp.userCond (fun p => p.1 != 0))
        (⟨flags, (n + 1, s), tr⟩ : CState (Nat × σ) ε)
        = (true, ⟨flags, (n + 1, s), tr⟩) := by
      simp [eval]
    have hb := hbody flags (n + 1) s tr
    have hIncr : eval (Exp.seqAct decCounter (.lit false))
        (⟨flags, (n + 1, (d s).1), tr ++ (d s).2⟩ : CState (Nat × σ) ε)
        = (false, ⟨flags, (n, (d s).1), tr ++ (d s).2⟩) := by
      simp [eval, runAct, decCounter]
    have hRest := ih flags (d s).1 (tr ++ (d s).2)
    simp only [loopN] at hRest
    have hRest' : Eval (.for0 (.userCond (fun p => p.1 != 0))
          (.seqAct decCounter (.lit false)) body)
        (eval (Exp.seqAct decCounter (.lit false))
          (⟨flags, (n + 1, (d s).1), tr ++ (d s).2⟩ : CState (Nat × σ) ε)).2 .norm
        ⟨flags, (0, (iterD d n (d s).1).1), tr ++ (d s).2 ++ (iterD d n (d s).1).2⟩ := by
      rw [hIncr]
      simpa [List.append_assoc] using hRest
    have hStep := Eval.forStep hc hb (Or.inl rfl) hRest'
    simpa [loopN, iterD, List.append_assoc] using hStep

/-- C1: for every before-action, after-action and guarded block, executing
`SE350_SCOPE(before, after) { block }` when the block completes by normal
fall-through produces exactly the sequence before-block-after: the trace
grows by the before-events, then the block's events, then the after-events
(so `before` runs exactly once strictly before the block's first statement
and `after` runs exactly once strictly after its last); the final caller
state is the after-action applied to the block's final state; and by
determinism this is the only execution. -/
theorem claim_C1 {σ ε : Type} (before_expr after_expr : Act σ ε)
    (block : UserStmt σ ε) (flags : List (String × Bool)) (s s2 : σ)
    (t tr : List ε)
    (h : run block (before_expr s).1 = (.norm, s2, t)) :
    Eval (SE350_SCOPE before_expr after_expr (toStmt block)) ⟨flags, s, tr⟩ .norm
      ⟨flags, (after_expr s2).1, tr ++ (before_expr s).2 ++ t ++ (after_expr s2).2⟩
    ∧ ∀ (o : Outcome) (st' : CState σ ε),
        Eval (SE350_SCOPE before_expr after_expr (toStmt block)) ⟨flags, s, tr⟩ o st' →
        o = .norm ∧
          st' = ⟨flags, (after_expr s2).1,
            tr ++ (before_expr s).2 ++ t ++ (after_expr s2).2⟩ := by
  have H := SCOPE_eval before_expr after_expr (toStmt block) (run block)
    (toStmt_eval block) flags s tr
  rw [h] at H
  simp only [afterPart] at H
  have H1 : Eval (SE350_SCOPE before_expr after_expr (toStmt block)) ⟨flags, s, tr⟩ .norm
      ⟨flags, (after_expr s2).1,
        tr ++ (before_expr s).2 ++ t ++ (after_expr s2).2⟩ := by
    simpa [List.append_assoc] using H
  refine ⟨H1, ?_⟩
  intro o st' h2
  obtain ⟨ho, hs⟩ := Eval_det H1 h2
  exact ⟨ho.symm, hs.symm⟩

/-- Witness for C1: a concrete fall-through block over `Int` state. -/
theorem claim_C1_witness :
    run (UserStmt.act (fun x : Int => (x * 2, ["blk"])))
        ((fun x : Int => (x + 1, (["B"] : List String))) 3).1 = (.norm, 8, ["blk"])
    ∧ (Eval (SE350_SCOPE (fun x : Int => (x + 1, ["B"]))
          (fun x : Int => (x + 10, ["A"]))
          (toStmt (UserStmt.act (fun x : Int => (x * 2, ["blk"])))))
        ⟨[], 3, []⟩ .norm ⟨[], 18, ["B", "blk", "A"]⟩
      ∧ ∀ (o : Outcome) (st' : CState Int String),
          Eval (SE350_SCOPE (fun x : Int => (x + 1, ["B"]))
              (fun x : Int => (x + 10, ["A"]))
              (toStmt (UserStmt.act (fun x : Int => (x * 2, ["blk"])))))
            ⟨[], 3, []⟩ o st' →
          o = .norm ∧ st' = ⟨[], 18, ["B", "blk", "A"]⟩) :=
  ⟨rfl, claim_C1 (fun x : Int => (x + 1, ["B"])) (fun x : Int => (x + 10, ["A"]))
    (UserStmt.act (fun x : Int => (x * 2, ["blk"]))) [] 3 8 ["blk"] [] rfl⟩

/-- C2: for every guarded block in which `SE350_SCOPE_BREAK` executes, no
statement of the block after the break point executes (`post` is arbitrary
and absent from the result), the after-action still runs exactly once, and
the result is identical to the one for the block that just falls through
after `pre`; by determinism this is the only execution. -/
theorem claim_C2 {σ ε : Type} (before_expr after_expr : Act σ ε)
    (pre post : UserStmt σ ε) (flags : List (String × Bool)) (s s2 : σ)
    (t tr : List ε)
    (h : run pre (before_expr s).1 = (.norm, s2, t)) :
    Eval (SE350_SCOPE before_expr after_expr
        (toStmt (.seq pre (.seq .brk post)))) ⟨flags, s, tr⟩ .norm
      ⟨flags, (after_expr s2).1, tr ++ (before_expr s).2 ++ t ++ (after_expr s2).2⟩
    ∧ Eval (SE350_SCOPE before_expr after_expr (toStmt pre)) ⟨flags, s, tr⟩ .norm
      ⟨flags, (after_expr s2).1, tr ++ (before_expr s).2 ++ t ++ (after_expr s2).2⟩
    ∧ ∀ (o : Outcome) (st' : CState σ ε),
        Eval (SE350_SCOPE before_expr after_expr
            (toStmt (.seq pre (.seq .brk post)))) ⟨flags, s, tr⟩ o st' →
        o = .norm ∧
          st' = ⟨flags, (after_expr s2).1,
            tr ++ (before_expr s).2 ++ t ++ (after_expr s2).2⟩ := by
  have hrun : run (UserStmt.seq pre (.seq .brk post)) (before_expr s).1
      = (.brk, s2, t) := by
    simp [run, h]
  have H := SCOPE_eval before_expr after_expr (toStmt (.seq pre (.seq .brk post)))
    (run (.seq pre (.seq .brk post))) (toStmt_eval (.seq pre (.seq .brk post))) flags s tr
  rw [hrun] at H
  simp only [afterPart] at H
  have H1 : Eval (SE350_SCOPE before_expr after_expr
      (toStmt (.seq pre (.seq .brk post)))) ⟨flags, s, tr⟩ .norm
      ⟨flags, (after_expr s2).1,
        tr ++ (before_expr s).2 ++ t ++ (after_expr s2).2⟩ := by
    simpa [List.append_assoc] using H
  have G := SCOPE_eval before_expr after_expr (toStmt pre) (run pre)
    (toStmt_eval pre) flags s tr
  rw [h] at G
  simp only [afterPart] at G
  have H2 : Eval (SE350_SCOPE before_expr after_expr (toStmt pre)) ⟨flags, s, tr⟩ .norm
      ⟨flags, (after_expr s2).1,
        tr ++ (before_expr s).2 ++ t ++ (after_expr s2).2⟩ := by
    simpa [List.append_assoc] using G
  refine ⟨H1, H2, ?_⟩
  intro o st' h2
  obtain ⟨ho, hs⟩ := Eval_det H1 h2
  exact ⟨ho.symm, hs.symm⟩

/-- Witness for C2: break after one concrete action; the statement after the
break point would emit `"post"` but its events are absent. -/
theorem claim_C2_witness :
    run (UserStmt.act (fun x : Int => (x * 2, ["blk"])))
        ((fun x : Int => (x + 1, (["B"] : List String))) 3).1 = (.norm, 8, ["blk"])
    ∧ (Eval (SE350_SCOPE (fun x : Int => (x + 1, ["B"]))
          (fun x : Int => (x + 10, ["A"]))
          (toStmt (.seq (UserStmt.act (fun x : Int => (x * 2, ["blk"])))
            (.seq .brk (UserStmt.act (fun x : Int => (x, ["post"])))))))
        ⟨[], 3, []⟩ .norm ⟨[], 18, ["B", "blk", "A"]⟩
      ∧ Eval (SE350_SCOPE (fun x : Int => (x + 1, ["B"]))
          (fun x : Int => (x + 10, ["A"]))
          (toStmt (UserStmt.act (fun x : Int => (x * 2, ["blk"])))))
        ⟨[], 3, []⟩ .norm ⟨[], 18, ["B", "blk", "A"]⟩
      ∧ ∀ (o : Outcome) (st' : CState Int String),
          Eval (SE350_SCOPE (fun x : Int => (x + 1, ["B"]))
              (fun x : Int => (x + 10, ["A"]))
              (toStmt (.seq (UserStmt.act (fun x : Int => (x * 2, ["blk"])))
                (.seq .brk (UserStmt.act (fun x : Int => (x, ["post"])))))))
            ⟨[], 3, []⟩ o st' →
          o = .norm ∧ st' = ⟨[], 18, ["B", "blk", "A"]⟩) :=
  ⟨rfl, claim_C2 (fun x : Int => (x + 1, ["B"])) (fun x : Int => (x + 10, ["A"]))
    (UserStmt.act (fun x : Int => (x * 2, ["blk"])))
    (UserStmt.act (fun x : Int => (x, ["post"]))) [] 3 8 ["blk"] [] rfl⟩

/-- C3: for every use of `SE350_SCOPE`, `SE350_SCOPE_EXIT` or `SE350_USING`
whose block performs a full function return, the after-action does not run:
the construct propagates `return`, the final caller state is the block's
final state with no after-action applied, and the trace contains only the
before/declare events and the block's events up to the return point
(`after_expr` is arbitrary and absent from the result); by determinism these
are the only executions. -/
theorem claim_C3 {σ ε : Type} (before_expr after_expr decl : Act σ ε)
    (block : UserStmt σ ε) (flags : List (String × Bool)) (s s1 s2 s3 : σ)
    (t1 t2 t3 tr : List ε)
    (h1 : run block (before_expr s).1 = (.ret, s1, t1))
    (h2 : run block s = (.ret, s2, t2))
    (h3 : run block (decl s).1 = (.ret, s3, t3)) :
    (Eval (SE350_SCOPE before_expr after_expr (toStmt block)) ⟨flags, s, tr⟩ .ret
        ⟨flags, s1, tr ++ (before_expr s).2 ++ t1⟩
      ∧ ∀ (o : Outcome) (st' : CState σ ε),
          Eval (SE350_SCOPE before_expr after_expr (toStmt block)) ⟨flags, s, tr⟩ o st' →
          o = .ret ∧ st' = ⟨flags, s1, tr ++ (before_expr s).2 ++ t1⟩)
    ∧ (Eval (SE350_SCOPE_EXIT after_expr (toStmt block)) ⟨flags, s, tr⟩ .ret
        ⟨flags, s2, tr ++ t2⟩
      ∧ ∀ (o : Outcome) (st' : CState σ ε),
          Eval (SE350_SCOPE_EXIT after_expr (toStmt block)) ⟨flags, s, tr⟩ o st' →
          o = .ret ∧ st' = ⟨flags, s2, tr ++ t2⟩)
    ∧ (Eval (SE350_USING decl after_expr (toStmt block)) ⟨flags, s, tr⟩ .ret
        ⟨flags, s3, tr ++ (decl s).2 ++ t3⟩
      ∧ ∀ (o : Outcome) (st' : CState σ ε),
          Eval (SE350_USING decl after_expr (toStmt block)) ⟨flags, s, tr⟩ o st' →
          o = .ret ∧ st' = ⟨flags, s3, tr ++ (decl s).2 ++ t3⟩) := by
  have HA := SCOPE_eval before_expr after_expr (toStmt block) (run block)
    (toStmt_eval block) flags s tr
  rw [h1] at HA
  simp only [afterPart] at HA
  have HA1 : Eval (SE350_SCOPE before_expr after_expr (toStmt block)) ⟨flags, s, tr⟩ .ret
      ⟨flags, s1, tr ++ (before_expr s).2 ++ t1⟩ := by
    simpa [List.append_assoc] using HA
  have HB := SCOPE_eval zeroExpr after_expr (toStmt block) (run block)
    (toStmt_eval block) flags s tr
  simp only [zeroExpr] at HB
  rw [h2] at HB
  simp only [afterPart] at HB
  have HB1 : Eval (SE350_SCOPE_EXIT after_expr (toStmt block)) ⟨flags, s, tr⟩ .ret
      ⟨flags, s2, tr ++ t2⟩ := by
    simpa [SE350_SCOPE_EXIT, zeroExpr, List.append_assoc] using HB
  have HC := USING_eval decl after_expr (toStmt block) (run block)
    (toStmt_eval block) flags s tr
  rw [h3] at HC
  simp only [afterPart] at HC
  have HC1 : Eval (SE350_USING decl after_expr (toStmt block)) ⟨flags, s, tr⟩ .ret
      ⟨flags, s3, tr ++ (decl s).2 ++ t3⟩ := by
    simpa [List.append_assoc] using HC
  refine ⟨⟨HA1, ?_⟩, ⟨HB1, ?_⟩, ⟨HC1, ?_⟩⟩
  · intro o st' hx
    obtain ⟨ho, hs⟩ := Eval_det HA1 hx
    exact ⟨ho.symm, hs.symm⟩
  · intro o st' hx
    obtain ⟨ho, hs⟩ := Eval_det HB1 hx
    exact ⟨ho.symm, hs.symm⟩
  · intro o st' hx
    obtain ⟨ho, hs⟩ := Eval_det HC1 hx
    exact ⟨ho.symm, hs.symm⟩

/-- Witness for C3: the block is a bare `return`; the after-action would emit
`"A"` but no `"A"` appears in any of the three final traces. -/
theorem claim_C3_witness :
    run (UserStmt.ret : UserStmt Int String)
        ((fun x : Int => (x + 1, (["B"] : List String))) 3).1 = (.ret, 4, [])
    ∧ run (UserStmt.ret : UserStmt Int String) (3 : Int) = (.ret, 3, [])
    ∧ run (UserStmt.ret : UserStmt Int String)
        ((fun x : Int => (x + 5, (["d"] : List String))) 3).1 = (.ret, 8, [])
    ∧ (Eval (SE350_SCOPE (fun x : Int => (x + 1, ["B"]))
          (fun x : Int => (x, ["A"])) (toStmt UserStmt.ret))
        ⟨[], 3, []⟩ .ret ⟨[], 4, ["B"]⟩
      ∧ Eval (SE350_SCOPE_EXIT (fun x : Int => (x, ["A"])) (toStmt UserStmt.ret))
        ⟨[], 3, []⟩ .ret ⟨[], 3, []⟩
      ∧ Eval (SE350_USING (fun x : Int => (x + 5, ["d"]))
          (fun x : Int => (x, ["A"])) (toStmt UserStmt.ret))
        ⟨[], 3, []⟩ .ret ⟨[], 8, ["d"]⟩) := by
  have h := claim_C3 (fun x : Int => (x + 1, ["B"])) (fun x : Int => (x, ["A"]))
    (fun x : Int => (x + 5, ["d"])) UserStmt.ret [] 3 4 3 8 [] [] [] []
    (by decide) (by decide) (by decide)
  exact ⟨by decide, by decide, by decide, h.1.1, h.2.1.1, h.2.2.1⟩

/-- C7: `SE350_SCOPE_EXIT(after){block}` is observably equivalent to
`SE350_SCOPE(noop, after){block}` where `noop` is the effect-free action:
for every after-action, every guarded block, every start state, the two have
exactly the same executions (hence identical traces and final states).  In
the source this holds because `SE350_SCOPE_EXIT` passes the pure expression
`0` as `before_expr`. -/
theorem claim_C7 {σ ε : Type} (after_expr : Act σ ε) (body : Stmt σ ε)
    (st : CState σ ε) (o : Outcome) (st' : CState σ ε) :
    Eval (SE350_SCOPE_EXIT after_expr body) st o st' ↔
      Eval (SE350_SCOPE (fun u => (u, [])) after_expr body) st o st' :=
  Iff.rfl

/-- C8: in the concrete scenario
`SE350_SCOPE(x = 1, x = 2) { assert x == 1 }` started with `x = 0`, the
assertion inside the block passes (the trace records `"assert_pass"`, i.e.
`x` equals `1` when the block runs), and immediately after the guarded
construct `x` equals `2`; by determinism this is the only execution. -/
theorem claim_C8 :
    Eval (SE350_SCOPE xSet1 xSet2 (toStmt assertBlock)) ⟨[], 0, []⟩ .norm
      ⟨[], 2, ["assert_pass"]⟩
    ∧ ∀ (o : Outcome) (st' : CState Int String),
        Eval (SE350_SCOPE xSet1 xSet2 (toStmt assertBlock)) ⟨[], 0, []⟩ o st' →
        o = .norm ∧ st' = ⟨[], 2, ["assert_pass"]⟩ := by
  have H1 : Eval (SE350_SCOPE xSet1 xSet2 (toStmt assertBlock)) ⟨[], 0, []⟩ .norm
      ⟨[], 2, ["assert_pass"]⟩ :=
    toStmt_eval (.scope xSet1 xSet2 assertBlock) [] 0 []
  refine ⟨H1, ?_⟩
  intro o st' h2
  obtain ⟨ho, hs⟩ := Eval_det H1 h2
  exact ⟨ho.symm, hs.symm⟩

/-- C9 (implicit): a `continue` statement directly in the guarded block of
`SE350_SCOPE`, `SE350_SCOPE_EXIT` or `SE350_USING` behaves like
`SE350_SCOPE_BREAK` rather than restarting the block: the block is not
re-run (each caller action's events appear once), nothing after the
`continue` executes (`post` is arbitrary and absent), and the after-action
runs exactly once. -/
theorem claim_C9 {σ ε : Type} (before_expr after_expr decl p : Act σ ε)
    (post : UserStmt σ ε) (flags : List (String × Bool)) (s : σ) (tr : List ε) :
    Eval (SE350_SCOPE before_expr after_expr
        (toStmt (.seq (.act p) (.seq .cont post)))) ⟨flags, s, tr⟩ .norm
      ⟨flags, (after_expr ((p ((before_expr s).1)).1)).1,
        tr ++ (before_expr s).2 ++ (p ((before_expr s).1)).2
          ++ (after_expr ((p ((before_expr s).1)).1)).2⟩
    ∧ Eval (SE350_SCOPE_EXIT after_expr
        (toStmt (.seq (.act p) (.seq .cont post)))) ⟨flags, s, tr⟩ .norm
      ⟨flags, (after_expr ((p s).1)).1, tr ++ (p s).2 ++ (after_expr ((p s).1)).2⟩
    ∧ Eval (SE350_USING decl after_expr
        (toStmt (.seq (.act p) (.seq .cont post)))) ⟨flags, s, tr⟩ .norm
      ⟨flags, (after_expr ((p ((decl s).1)).1)).1,
        tr ++ (decl s).2 ++ (p ((decl s).1)).2
          ++ (after_expr ((p ((decl s).1)).1)).2⟩ := by
  refine ⟨?_, ?_, ?_⟩
  · have H := SCOPE_eval before_expr after_expr
      (toStmt (.seq (.act p) (.seq .cont post)))
      (run (.seq (.act p) (.seq .cont post)))
      (toStmt_eval (.seq (.act p) (.seq .cont post))) flags s tr
    simpa [run, afterPart, List.append_assoc] using H
  · have H := SCOPE_eval zeroExpr after_expr
      (toStmt (.seq (.act p) (.seq .cont post)))
      (run (.seq (.act p) (.seq .cont post)))
      (toStmt_eval (.seq (.act p) (.seq .cont post))) flags s tr
    simpa [run, afterPart, zeroExpr, SE350_SCOPE_EXIT, List.append_assoc] using H
  · have H := USING_eval decl after_expr
      (toStmt (.seq (.act p) (.seq .cont post)))
      (run (.seq (.act p) (.seq .cont post)))
      (toStmt_eval (.seq (.act p) (.seq .cont post))) flags s tr
    simpa [run, afterPart, List.append_assoc] using H

/-- C10 (implicit frame property): every execution of compiled caller code —
in particular of `SE350_SCOPE`, `SE350_SCOPE_EXIT` and `SE350_USING`, which
are `toStmt` of `UserStmt.scope`, `UserStmt.scopeExit` and
`UserStmt.scopeUsing` — leaves the stack of `_Bool` variables exactly as it
found it (the private run-state flag is scoped away and not visible after
the construct), and its outcome, final caller state and emitted events are
exactly those of the caller-supplied denotation `run`, i.e. produced solely
by the caller-supplied before/after/declare expressions and block
statements. -/
theorem claim_C10 {σ ε : Type} (ub : UserStmt σ ε) (flags : List (String × Bool))
    (s : σ) (tr : List ε) (o : Outcome) (st' : CState σ ε)
    (h : Eval (toStmt ub) ⟨flags, s, tr⟩ o st') :
    st'.flags = flags ∧ o = (run ub s).1 ∧ st'.user = (run ub s).2.1
      ∧ st'.trace = tr ++ (run ub s).2.2 := by
  obtain ⟨ho, hs⟩ := Eval_det (toStmt_eval ub flags s tr) h
  rw [← hs]
  exact ⟨rfl, ho.symm, rfl, rfl⟩

/-- Witness for C10: a concrete `SE350_USING` use over `Int` state. -/
theorem claim_C10_witness :
    (Eval (toStmt (UserStmt.scopeUsing (fun x : Int => (x + 5, ["d"]))
          (fun x : Int => (x, ["a"]))
          (.act (fun x : Int => (x * 3, ["blk"])))))
        ⟨[], 1, []⟩ .norm ⟨[], 18, ["d", "blk", "a"]⟩)
    ∧ ((⟨[], 18, ["d", "blk", "a"]⟩ : CState Int String).flags = []
      ∧ Outcome.norm = (run (UserStmt.scopeUsing (fun x : Int => (x + 5, ["d"]))
          (fun x : Int => (x, ["a"]))
          (.act (fun x : Int => (x * 3, ["blk"])))) 1).1
      ∧ (⟨[], 18, ["d", "blk", "a"]⟩ : CState Int String).user
          = (run (UserStmt.scopeUsing (fun x : Int => (x + 5, ["d"]))
              (fun x : Int => (x, ["a"]))
              (.act (fun x : Int => (x * 3, ["blk"])))) 1).2.1
      ∧ (⟨[], 18, ["d", "blk", "a"]⟩ : CState Int String).trace
          = [] ++ (run (UserStmt.scopeUsing (fun x : Int => (x + 5, ["d"]))
              (fun x : Int => (x, ["a"]))
              (.act (fun x : Int => (x * 3, ["blk"])))) 1).2.2) :=
  ⟨toStmt_eval (UserStmt.scopeUsing (fun x : Int => (x + 5, ["d"]))
      (fun x : Int => (x, ["a"])) (.act (fun x : Int => (x * 3, ["blk"])))) [] 1 [],
    claim_C10 (UserStmt.scopeUsing (fun x : Int => (x + 5, ["d"]))
        (fun x : Int => (x, ["a"])) (.act (fun x : Int => (x * 3, ["blk"]))))
      [] 1 [] .norm ⟨[], 18, ["d", "blk", "a"]⟩
      (toStmt_eval (UserStmt.scopeUsing (fun x : Int => (x + 5, ["d"]))
        (fun x : Int => (x, ["a"])) (.act (fun x : Int => (x * 3, ["blk"])))) [] 1 [])⟩

/-- Counting events in the iterated guard denotation: with a before-action
emitting `"before"`, an effect-free block and an after-action emitting
`"after"`, the `M`-fold iteration emits each of `"before"` and `"after"`
exactly `M` times. -/
theorem guardIter_count (M : Nat) :
    ((iterD (guardIter emitBefore emitStep emitAfter) M ()).2.count "before" = M)
    ∧ ((iterD (guardIter emitBefore emitStep emitAfter) M ()).2.count "after" = M) := by
  induction M with
  | zero => simp [iterD]
  | succ n ih =>
    obtain ⟨ih1, ih2⟩ := ih
    simp [iterD, guardIter, emitBefore, emitStep, emitAfter, List.count_append,
      List.count_cons] at ih1 ih2 ⊢
    omega

/-- C4: per guard activation the private run-state flag works exactly once
(the construct completes normally with its expansion's flag scoped away),
and across `N` entries of the same lexical guard placed in an enclosing loop
iterated `N` times the state is re-initialized per entry, so the whole loop
completes normally and its trace is exactly the `N`-fold concatenation of
per-activation segments before-block-after (`iterD` of `guardIter`); in
particular, with a before-action emitting `"before"` and an after-action
emitting `"after"`, each is emitted exactly `N` times, paired one to one. -/
theorem claim_C4 {σ ε : Type} (before_expr after_expr step : Act σ ε) (N : Nat)
    (flags : List (String × Bool)) (s : σ) (tr : List ε) :
    Eval (loopN (SE350_SCOPE (liftA before_expr) (liftA after_expr)
        (toStmt (.act (liftA step)))))
      ⟨flags, (N, s), tr⟩ .norm
      ⟨flags, (0, (iterD (guardIter before_expr step after_expr) N s).1),
        tr ++ (iterD (guardIter before_expr step after_expr) N s).2⟩
    ∧ (((iterD (guardIter emitBefore emitStep emitAfter) N ()).2.count "before" = N)
      ∧ ((iterD (guardIter emitBefore emitStep emitAfter) N ()).2.count "after" = N)) := by
  constructor
  · apply loopN_eval
    intro flags' n u tr'
    have H := SCOPE_eval (liftA before_expr) (liftA after_expr)
      (toStmt (.act (liftA step))) (run (.act (liftA step)))
      (toStmt_eval (.act (liftA step))) flags' (n, u) tr'
    simpa [run, afterPart, liftA, guardIter, List.append_assoc] using H
  · exact guardIter_count N

/-- C5: two `SE350_USING` declarations stacked immediately adjacent before
one shared guarded block: the declare steps run in textual order
outer-then-inner (`d1` then `d2`, and the block starts in the state produced
by both declarations, so both bindings are simultaneously visible inside
it), and on normal exit the after-actions run in reverse order
inner-then-outer (`a2` completes before `a1` runs), as the trace order
shows; by determinism this is the only execution. -/
theorem claim_C5 {σ ε : Type} (d1 a1 d2 a2 : Act σ ε) (body : UserStmt σ ε)
    (flags : List (String × Bool)) (s sb : σ) (t tr : List ε)
    (h : run body ((d2 ((d1 s).1)).1) = (.norm, sb, t)) :
    Eval (SE350_USING d1 a1 (SE350_USING d2 a2 (toStmt body))) ⟨flags, s, tr⟩ .norm
      ⟨flags, (a1 ((a2 sb).1)).1,
        tr ++ (d1 s).2 ++ (d2 ((d1 s).1)).2 ++ t ++ (a2 sb).2 ++ (a1 ((a2 sb).1)).2⟩
    ∧ ∀ (o : Outcome) (st' : CState σ ε),
        Eval (SE350_USING d1 a1 (SE350_USING d2 a2 (toStmt body))) ⟨flags, s, tr⟩ o st' →
        o = .norm ∧ st' = ⟨flags, (a1 ((a2 sb).1)).1,
          tr ++ (d1 s).2 ++ (d2 ((d1 s).1)).2 ++ t ++ (a2 sb).2 ++ (a1 ((a2 sb).1)).2⟩ := by
  have H := toStmt_eval (UserStmt.scopeUsing d1 a1 (.scopeUsing d2 a2 body)) flags s tr
  simp only [toStmt, run, afterPart, h] at H
  have H1 : Eval (SE350_USING d1 a1 (SE350_USING d2 a2 (toStmt body))) ⟨flags, s, tr⟩ .norm
      ⟨flags, (a1 ((a2 sb).1)).1,
        tr ++ (d1 s).2 ++ (d2 ((d1 s).1)).2 ++ t ++ (a2 sb).2 ++ (a1 ((a2 sb).1)).2⟩ := by
    simpa [List.append_assoc] using H
  refine ⟨H1, ?_⟩
  intro o st' h2
  obtain ⟨ho, hs⟩ := Eval_det H1 h2
  exact ⟨ho.symm, hs.symm⟩

/-- Witness for C5: two concrete stacked declarations over `Int` state; the
observed order is `d1, d2, blk, a2, a1`. -/
theorem claim_C5_witness :
    run (UserStmt.act (fun x : Int => (x + 1, ["blk"])))
        (((fun x : Int => (x + 3, (["d2"] : List String)))
          (((fun x : Int => (x * 10, (["d1"] : List String))) 0).1)).1)
      = (.norm, 4, ["blk"])
    ∧ (Eval (SE350_USING (fun x : Int => (x * 10, ["d1"]))
          (fun x : Int => (x, ["a1"]))
          (SE350_USING (fun x : Int => (x + 3, ["d2"]))
            (fun x : Int => (x, ["a2"]))
            (toStmt (UserStmt.act (fun x : Int => (x + 1, ["blk"]))))))
        ⟨[], 0, []⟩ .norm ⟨[], 4, ["d1", "d2", "blk", "a2", "a1"]⟩
      ∧ ∀ (o : Outcome) (st' : CState Int String),
          Eval (SE350_USING (fun x : Int => (x * 10, ["d1"]))
              (fun x : Int => (x, ["a1"]))
              (SE350_USING (fun x : Int => (x + 3, ["d2"]))
                (fun x : Int => (x, ["a2"]))
                (toStmt (UserStmt.act (fun x : Int => (x + 1, ["blk"]))))))
            ⟨[], 0, []⟩ o st' →
          o = .norm ∧ st' = ⟨[], 4, ["d1", "d2", "blk", "a2", "a1"]⟩) :=
  ⟨by decide, claim_C5 (fun x : Int => (x * 10, ["d1"])) (fun x : Int => (x, ["a1"]))
    (fun x : Int => (x + 3, ["d2"])) (fun x : Int => (x, ["a2"]))
    (UserStmt.act (fun x : Int => (x + 1, ["blk"]))) [] 0 4 ["blk"] [] (by decide)⟩

/-- C6: an `SE350_SCOPE_BREAK` originating inside a guarded block affects
only the innermost enclosing guarded block: with an enclosing caller loop
iterated `N` times around `SE350_SCOPE(b1, a1)` whose block is
`p1; SE350_SCOPE(b2, a2){ p2; SE350_SCOPE_BREAK; post }; r1`, every
iteration runs the inner after-action `a2` right after the break, then still
runs the rest of the outer block (`r1`), then the outer after-action `a1`,
and the loop still completes all `N` iterations; the statements `post` after
the break never execute (they are arbitrary and absent from the result). -/
theorem claim_C6 {σ ε : Type} (b1 a1 p1 b2 a2 p2 r1 : Act σ ε)
    (post : UserStmt (Nat × σ) ε) (N : Nat) (flags : List (String × Bool))
    (s : σ) (tr : List ε) :
    Eval (loopN (SE350_SCOPE (liftA b1) (liftA a1)
        (toStmt (.seq (.act (liftA p1))
          (.seq (.scope (liftA b2) (liftA a2)
              (.seq (.act (liftA p2)) (.seq .brk post)))
            (.act (liftA r1)))))))
      ⟨flags, (N, s), tr⟩ .norm
      ⟨flags, (0, (iterD (innerBreakIter b1 a1 p1 b2 a2 p2 r1) N s).1),
        tr ++ (iterD (innerBreakIter b1 a1 p1 b2 a2 p2 r1) N s).2⟩ := by
  apply loopN_eval
  intro flags' n u tr'
  have H := SCOPE_eval (liftA b1) (liftA a1)
    (toStmt (.seq (.act (liftA p1))
      (.seq (.scope (liftA b2) (liftA a2)
          (.seq (.act (liftA p2)) (.seq .brk post)))
        (.act (liftA r1)))))
    (run (.seq (.act (liftA p1))
      (.seq (.scope (liftA b2) (liftA a2)
          (.seq (.act (liftA p2)) (.seq .brk post)))
        (.act (liftA r1)))))
    (toStmt_eval (.seq (.act (liftA p1))
      (.seq (.scope (liftA b2) (liftA a2)
          (.seq (.act (liftA p2)) (.seq .brk post)))
        (.act (liftA r1)))))
    flags' (n, u) tr'
  simpa [run, afterPart, liftA, innerBreakIter, List.append_assoc] using H

/-- The fuel interpreter is sound for the big-step semantics: whenever it
returns a result, that result is derivable under `Eval`. -/
theorem exec_sound {σ ε : Type} :
    ∀ (f : Nat) (s : Stmt σ ε) (st : CState σ ε) (r : Outcome × CState σ ε),
      exec f s st = some r → Eval s st r.1 r.2 := by
  intro f
  induction f with
  | zero => intro s st r h; simp [exec] at h
  | succ f ih =>
    intro s st r h
    cases s with
    | skip =>
      have h' : some ((Outcome.norm, st)) = some r := h
      injection h' with h2
      subst h2
      exact Eval.skip
    | act a =>
      have h' : some ((Outcome.norm, runAct a st)) = some r := h
      injection h' with h2
      subst h2
      exact Eval.act
    | brk =>
      have h' : some ((Outcome.brk, st)) = some r := h
      injection h' with h2
      subst h2
      exact Eval.brk
    | cont =>
      have h' : some ((Outcome.cont, st)) = some r := h
      injection h' with h2
      subst h2
      exact Eval.cont
    | ret =>
      have h' : some ((Outcome.ret, st)) = some r := h
      injection h' with h2
      subst h2
      exact Eval.ret
    | seq s1 s2 =>
      simp only [exec] at h
      rcases hh : exec f s1 st with _ | ⟨o1, st1⟩
      · rw [hh] at h
        exact Option.noConfusion h
      · rw [hh] at h
        cases o1 with
        | norm => exact Eval.seqNorm (ih s1 st (.norm, st1) hh) (ih s2 st1 r h)
        | brk =>
          have h' : some ((Outcome.brk, st1)) = some r := h
          injection h' with h2
          subst h2
          exact Eval.seqAbrupt (ih s1 st (.brk, st1) hh) (by simp)
        | cont =>
          have h' : some ((Outcome.cont, st1)) = some r := h
          injection h' with h2
          subst h2
          exact Eval.seqAbrupt (ih s1 st (.cont, st1) hh) (by simp)
        | ret =>
          have h' : some ((Outcome.ret, st1)) = some r := h
          injection h' with h2
          subst h2
          exact Eval.seqAbrupt (ih s1 st (.ret, st1) hh) (by simp)
    | ite c s1 s2 =>
      simp only [exec] at h
      cases hc : c st.user with
      | true =>
        rw [hc] at h
        simp only [if_true] at h
        exact Eval.iteTrue hc (ih s1 st r h)
      | false =>
        rw [hc] at h
        simp only [Bool.false_eq_true, if_false] at h
        exact Eval.iteFalse hc (ih s2 st r h)
    | for0 c i b =>
      simp only [exec] at h
      cases hcond : (eval c st).1 with
      | false =>
        rw [hcond] at h
        simp only [Bool.false_eq_true, if_false] at h
        have hc : eval c st = (false, (eval c st).2) := by
          rw [← hcond]
        have h' : some ((Outcome.norm, (eval c st).2)) = some r := h
        injection h' with h2
        subst h2
        exact Eval.forDone hc
      | true =>
        rw [hcond] at h
        simp only [if_true] at h
        have hc : eval c st = (true, (eval c st).2) := by
          rw [← hcond]
        rcases hb : exec f b (eval c st).2 with _ | ⟨ob, st2⟩
        · rw [hb] at h
          exact Option.noConfusion h
        · rw [hb] at h
          cases ob with
          | ret =>
            have h' : some ((Outcome.ret, st2)) = some r := h
            injection h' with h2
            subst h2
            exact Eval.forRet hc (ih b (eval c st).2 (.ret, st2) hb)
          | brk =>
            have h' : some ((Outcome.norm, st2)) = some r := h
            injection h' with h2
            subst h2
            exact Eval.forBrk hc (ih b (eval c st).2 (.brk, st2) hb)
          | norm =>
            exact Eval.forStep hc (ih b (eval c st).2 (.norm, st2) hb) (Or.inl rfl)
              (ih (.for0 c i b) (eval i st2).2 r h)
          | cont =>
            exact Eval.forStep hc (ih b (eval c st).2 (.cont, st2) hb) (Or.inr rfl)
              (ih (.for0 c i b) (eval i st2).2 r h)
    | forD a c i b =>
      exact Eval.forD (ih (.for0 c i b) (runAct a st) r h)
    | declFor n init c i b =>
      simp only [exec] at h
      rcases hx : exec f (.for0 c i b) (pushFlag n init st) with _ | ⟨o, stx⟩
      · rw [hx] at h
        exact Option.noConfusion h
      · rw [hx] at h
        have h' : some ((o, popFlag stx)) = some r := h
        injection h' with h2
        subst h2
        exact Eval.declFor (ih (.for0 c i b) (pushFlag n init st) (o, stx) hx)

end ScopeBound
